import Mathlib

/-!
Shallow embedding of the video resolution engine of ovos-skill-share-to-mirror
(file youtube_search.py, class YouTubeSearcher), together with theorems checking
the specification's claims about it.

Modelling conventions:
* Python strings are Lean `String`s (the queries, URLs and identifiers involved are ASCII).
* The mutable `search_history : Set[str]` is modelled by the list of its elements in
  insertion order (oldest first).  A Python `set` does **not** retain insertion order:
  its iteration order is hash based and salted, hence unspecified.  Every place the code
  converts the set to a list (`list(self.search_history)`) therefore receives the
  resulting order through an explicit oracle `ord : List String → List String`;
  admissible oracles return a permutation of the set's contents (e.g. the identity, or
  `List.reverse`).
* Network and library calls (`request.execute()`, `ydl.extract_info`) are external; their
  responses enter the model as oracle inputs.  `none` models a raised error (the
  `except` branch), `some xs` a successful response.
* `random.choice` and `random.random() < 0.3` are modelled by oracle values in
  `RandOracle` (an index into the choice list, taken modulo its length, and a Bool).
* Fallible operations return `Option`.
-/

set_option maxRecDepth 40000
set_option linter.unusedVariables false

/-- A Python value appearing in the `duration` field of a yt-dlp entry: an `int`
(`vInt`; float durations are outside the model except through decimal strings), a
string, or `None` / an absent key (`vNone`). -/
inductive PyVal where
  | vInt : Int → PyVal
  | vStr : String → PyVal
  | vNone : PyVal
  deriving DecidableEq, Repr

/-- ASCII decimal digit test. -/
def isDig (c : Char) : Bool := ('0' ≤ c) && (c ≤ '9')

/-- The ASCII whitespace characters stripped by `str.strip()` and by `int()` / `float()`
on strings. -/
def isWs (c : Char) : Bool :=
  (c == ' ') || (c == '\t') || (c == '\n') || (c == '\r') || (c == '\x0b') || (c == '\x0c')

/-- Numeric value of a most-significant-first digit string. -/
def digitsVal (cs : List Char) : Nat := cs.foldl (fun a c => 10 * a + (c.toNat - 48)) 0

/-- Strip leading and trailing whitespace from a character list. -/
def trimWs (cs : List Char) : List Char := ((cs.dropWhile isWs).reverse.dropWhile isWs).reverse

/-- Models Python `int(s)` on a string: optional surrounding whitespace, an optional
sign, then one or more decimal digits.  (Underscore separators and non-ASCII digits are
outside the model and simply fail here.) -/
def pyIntOfChars (cs : List Char) : Option Int :=
  match trimWs cs with
  | [] => none
  | c :: rest =>
    if c = '-' then
      if rest ≠ [] ∧ rest.all isDig then some (-(digitsVal rest : Int)) else none
    else if c = '+' then
      if rest ≠ [] ∧ rest.all isDig then some ((digitsVal rest : Int)) else none
    else if (c :: rest).all isDig then some ((digitsVal (c :: rest) : Int)) else none

/-- Integer part of an unsigned decimal float literal: digits with an optional single
decimal point, at least one digit overall.  Returns the value before the point
(`digitsVal [] = 0` covers literals such as `.5`). -/
def floatIntPart (cs : List Char) : Option Nat :=
  let ip := cs.takeWhile isDig
  match cs.dropWhile isDig with
  | [] => if ip = [] then none else some (digitsVal ip)
  | c :: frac =>
    if c = '.' then
      if (ip ≠ [] ∨ frac ≠ []) ∧ frac.all isDig then some (digitsVal ip) else none
    else none

/-- Models `int(float(s))` for plain decimal literals: optional surrounding whitespace,
optional sign, digits with an optional single decimal point; truncation is toward zero,
matching `int()`.  Exponent forms, underscores, `inf` / `nan` and binary rounding of
long fractional parts are outside the model; such strings simply fail here (the claims
under check only involve integral strings). -/
def pyFloatToInt (cs : List Char) : Option Int :=
  match trimWs cs with
  | [] => none
  | c :: rest =>
    if c = '-' then (floatIntPart rest).map (fun n => -(n : Int))
    else if c = '+' then (floatIntPart rest).map (fun n => (n : Int))
    else (floatIntPart (c :: rest)).map (fun n => (n : Int))

/-- Models `s.split(":")`. -/
def splitOnColon : List Char → List (List Char)
  | [] => [[]]
  | c :: cs =>
    if c = ':' then [] :: splitOnColon cs
    else
      match splitOnColon cs with
      | [] => [[c]]
      | p :: ps => (c :: p) :: ps

/-- Shallow embedding of `YouTubeSearcher._parse_duration`: an `int` value is returned
as is; a string is first tried as `int(float(s))`, then as `MM:SS` or `HH:MM:SS` with
`int()` parts; anything else (including `None`) yields `none`. -/
def parse_duration : PyVal → Option Int
  | .vInt n => some n
  | .vNone => none
  | .vStr s =>
    match pyFloatToInt s.toList with
    | some n => some n
    | none =>
      match splitOnColon s.toList with
      | [p0, p1] =>
        match pyIntOfChars p0, pyIntOfChars p1 with
        | some m, some sec => some (m * 60 + sec)
        | _, _ => none
      | [p0, p1, p2] =>
        match pyIntOfChars p0, pyIntOfChars p1, pyIntOfChars p2 with
        | some hh, some mm, some ss => some (hh * 3600 + mm * 60 + ss)
        | _, _, _ => none
      | _ => none

/-- A yt-dlp flat search entry, restricted to the fields the code reads: the optional
`url` string field, the optional `id` field, and the `duration` value (a present but
empty string models a falsy field). -/
structure Entry where
  url : Option String
  id : Option String
  duration : PyVal
  deriving DecidableEq, Repr

/-- Python truthiness of the duration value: `None`, `0` and the empty string are falsy. -/
def pyTruthy : PyVal → Bool
  | .vInt n => n != 0
  | .vStr s => s != ""
  | .vNone => false

/-- The canonical watch URL built by the code from a video identifier. -/
def watchUrl (videoId : String) : String := "https://www.youtube.com/watch?v=" ++ videoId

/-- Is `pre` a prefix of `l`? -/
def listPrefixEq : List Char → List Char → Bool
  | [], _ => true
  | _ :: _, [] => false
  | a :: as, b :: bs => a == b && listPrefixEq as bs

/-- Does `hay` contain `needle` as a contiguous substring (Python's `in` on strings)? -/
def containsSub (needle : List Char) : List Char → Bool
  | [] => needle.isEmpty
  | c :: cs => listPrefixEq needle (c :: cs) || containsSub needle cs

/-- String wrapper for `containsSub`. -/
def strContainsSub (needle hay : String) : Bool := containsSub needle.toList hay.toList

/-- Shallow embedding of `_extract_url_from_entry`: prefer a present `url` field that
starts with `http`; otherwise build the watch URL from a truthy `id`; otherwise no URL. -/
def extract_url_from_entry (e : Entry) : Option String :=
  match e.url with
  | some u =>
    if listPrefixEq ("http".toList) u.toList then some u
    else
      match e.id with
      | some i => if i != "" then some (watchUrl i) else none
      | none => none
  | none =>
    match e.id with
    | some i => if i != "" then some (watchUrl i) else none
    | none => none

/-- The per-entry keep decision of `_filter_by_duration`: a falsy duration is kept only
for `"any"`; otherwise the parsed duration must be truthy (non-`None` and nonzero) and
within the class bound (`≤ 60` for `"shorts"`, `≥ 600` for `"long"`), with `"any"`
keeping everything. -/
def keepEntry (video_type : String) (e : Entry) : Bool :=
  if !pyTruthy e.duration then video_type == "any"
  else
    match parse_duration e.duration with
    | some d =>
      if video_type == "shorts" && (d != 0) && decide (d ≤ 60) then true
      else if video_type == "long" && (d != 0) && decide (600 ≤ d) then true
      else video_type == "any"
    | none => video_type == "any"

/-- Shallow embedding of `_filter_by_duration`: the append loop keeps entries in order,
i.e. it is `List.filter` with the per-entry decision. -/
def filter_by_duration (entries : List Entry) (video_type : String) : List Entry :=
  entries.filter (fun e => keepEntry video_type e)

/-- Python `l[-n:]`: the last `n` elements. -/
def lastSlice (n : Nat) (l : List α) : List α := l.drop (l.length - n)

/-- Shallow embedding of `_cleanup_history`: when the set holds more than 50 elements,
keep the last 30 of its iteration order (`list(self.search_history)[-30:]`).  `history`
is the set's contents; `ord` supplies the unspecified iteration order. -/
def cleanup_history (ord : List String → List String) (history : List String) : List String :=
  if 50 < history.length then lastSlice 30 (ord history) else history

/-- The scan of `_search_google_api`'s first loop: the first listed videoId whose watch
URL is not in the history. -/
def firstUnseenId (history : List String) : List String → Option String
  | [] => none
  | i :: rest => if watchUrl i ∈ history then firstUnseenId history rest else some i

/-- Shallow embedding of `_search_google_api`.  The network call is an oracle input:
`resp = none` models a raised request error, `some ids` the `videoId` values of the
response items in order.  `video_type` only selects the backend-native duration filter
in the outbound request (answered by the oracle); the local processing of the response
does not consult it, and no local duration filter is applied on this path.  Returns the
optional URL together with the history contents afterwards. -/
def search_google_api (ord : List String → List String) (history : List String)
    (resp : Option (List String)) (video_type : String) : Option String × List String :=
  match resp with
  | none => (none, history)
  | some [] => (none, history)
  | some (i0 :: rest) =>
    match firstUnseenId history (i0 :: rest) with
    | some i => (some (watchUrl i), cleanup_history ord (history ++ [watchUrl i]))
    | none => (some (watchUrl i0), history)

/-- The first loop of `_search_yt_dlp`: the first entry (in order) with an extractable
URL not in the history, yielding that URL. -/
def firstUnseenUrl (history : List String) : List Entry → Option String
  | [] => none
  | e :: rest =>
    match extract_url_from_entry e with
    | some u => if u ∈ history then firstUnseenUrl history rest else some u
    | none => firstUnseenUrl history rest

/-- The second loop of `_search_yt_dlp`: the first entry with any extractable URL. -/
def firstValidUrl : List Entry → Option String
  | [] => none
  | e :: rest =>
    match extract_url_from_entry e with
    | some u => some u
    | none => firstValidUrl rest

/-- Shallow embedding of `_search_yt_dlp`.  `resp = none` models a raised extractor
error, a falsy `info`, or a missing `entries` key; `some entries` the flat entries in
order.  For a non-`"any"` class the local duration filter is applied first; then the
first unseen URL is returned (inserting it into the history and trimming), else the
first valid URL (unchanged history), else no result. -/
def search_yt_dlp (ord : List String → List String) (history : List String)
    (resp : Option (List Entry)) (video_type : String) : Option String × List String :=
  match resp with
  | none => (none, history)
  | some [] => (none, history)
  | some (e0 :: rest) =>
    let entries :=
      if video_type != "any" then filter_by_duration (e0 :: rest) video_type else e0 :: rest
    if entries = [] then (none, history)
    else
      match firstUnseenUrl history entries with
      | some u => (some u, cleanup_history ord (history ++ [u]))
      | none =>
        match firstValidUrl entries with
        | some u => (some u, history)
        | none => (none, history)

/-- The 64 MD5 round constants of RFC 1321 (`floor(2^32 * abs(sin(i + 1)))`). -/
def md5K : List Nat :=
  [3614090360, 3905402710, 606105819, 3250441966, 4118548399, 1200080426, 2821735955, 4249261313,
   1770035416, 2336552879, 4294925233, 2304563134, 1804603682, 4254626195, 2792965006, 1236535329,
   4129170786, 3225465664, 643717713, 3921069994, 3593408605, 38016083, 3634488961, 3889429448,
   568446438, 3275163606, 4107603335, 1163531501, 2850285829, 4243563512, 1735328473, 2368359562,
   4294588738, 2272392833, 1839030562, 4259657740, 2763975236, 1272893353, 4139469664, 3200236656,
   681279174, 3936430074, 3572445317, 76029189, 3654602809, 3873151461, 530742520, 3299628645,
   4096336452, 1126891415, 2878612391, 4237533241, 1700485571, 2399980690, 4293915773, 2240044497,
   1873313359, 4264355552, 2734768916, 1309151649, 4149444226, 3174756917, 718787259, 3951481745]

/-- The per-round left-rotation amounts of MD5. -/
def md5S : List Nat :=
  [7, 12, 17, 22, 7, 12, 17, 22, 7, 12, 17, 22, 7, 12, 17, 22,
   5, 9, 14, 20, 5, 9, 14, 20, 5, 9, 14, 20, 5, 9, 14, 20,
   4, 11, 16, 23, 4, 11, 16, 23, 4, 11, 16, 23, 4, 11, 16, 23,
   6, 10, 15, 21, 6, 10, 15, 21, 6, 10, 15, 21, 6, 10, 15, 21]

/-- 32-bit left rotation on `Nat` (inputs below `2 ^ 32`). -/
def rotl32 (x n : Nat) : Nat := ((x <<< n) % 4294967296) ||| (x >>> (32 - n))

/-- One MD5 round: state `(a, b, c, d)`, message words supplied by `m`. -/
def md5Round (m : Nat → Nat) (st : Nat × Nat × Nat × Nat) (i : Nat) : Nat × Nat × Nat × Nat :=
  let (a, b, c, d) := st
  let f :=
    if i < 16 then (b &&& c) ||| ((4294967295 - b) &&& d)
    else if i < 32 then (d &&& b) ||| ((4294967295 - d) &&& c)
    else if i < 48 then b ^^^ c ^^^ d
    else c ^^^ (b ||| (4294967295 - d))
  let g :=
    if i < 16 then i
    else if i < 32 then (5 * i + 1) % 16
    else if i < 48 then (3 * i + 5) % 16
    else (7 * i) % 16
  let tmp := (a + f + md5K.getD i 0 + m g) % 4294967296
  (d, (b + rotl32 tmp (md5S.getD i 0)) % 4294967296, b, c)

/-- `k` little-endian bytes of `x`. -/
def leBytes : Nat → Nat → List Nat
  | 0, _ => []
  | k + 1, x => x % 256 :: leBytes k (x / 256)

/-- MD5 padding: a `0x80` byte, zero bytes up to 56 mod 64, then the 8-byte
little-endian bit length. -/
def md5Pad (msg : List Nat) : List Nat :=
  let n := msg.length
  let z := (120 - ((n + 1) % 64)) % 64
  msg ++ 128 :: List.replicate z 0 ++ leBytes 8 ((8 * n) % 18446744073709551616)

/-- Word `j` (little-endian 32-bit) of a 64-byte block. -/
def blockWord (block : List Nat) (j : Nat) : Nat :=
  block.getD (4 * j) 0 + 256 * block.getD (4 * j + 1) 0 +
    65536 * block.getD (4 * j + 2) 0 + 16777216 * block.getD (4 * j + 3) 0

/-- Process one 64-byte block of MD5. -/
def md5Block (st : Nat × Nat × Nat × Nat) (block : List Nat) : Nat × Nat × Nat × Nat :=
  let (a0, b0, c0, d0) := st
  let (a, b, c, d) := (List.range 64).foldl (md5Round (blockWord block)) (a0, b0, c0, d0)
  ((a0 + a) % 4294967296, (b0 + b) % 4294967296, (c0 + c) % 4294967296, (d0 + d) % 4294967296)

/-- The 16-byte MD5 digest of a byte list. -/
def md5Bytes (msg : List Nat) : List Nat :=
  let st := (List.toChunks 64 (md5Pad msg)).foldl md5Block
    (1732584193, 4023233417, 2562383102, 271733878)
  leBytes 4 st.1 ++ leBytes 4 st.2.1 ++ leBytes 4 st.2.2.1 ++ leBytes 4 st.2.2.2

/-- Lowercase hex digit. -/
def hexChar (n : Nat) : Char := if n < 10 then Char.ofNat (48 + n) else Char.ofNat (87 + n)

/-- The 32 lowercase hex characters of the MD5 digest of a byte list
(`hashlib.md5(...).hexdigest()`). -/
def md5HexChars (msg : List Nat) : List Char :=
  (md5Bytes msg).foldr (fun b acc => hexChar (b / 16) :: hexChar (b % 16) :: acc) []

/-- ASCII lower-casing of one character (`str.lower` restricted to ASCII; the queries
modelled here are ASCII, where UTF-8 bytes and code points coincide). -/
def asciiLower (c : Char) : Char :=
  if 'A' ≤ c ∧ c ≤ 'Z' then Char.ofNat (c.toNat + 32) else c

/-- Shallow embedding of `_get_query_hash`: the first 8 hex characters of the MD5 of the
lower-cased, stripped query (`hashlib.md5(query.lower().strip().encode()).hexdigest()[:8]`). -/
def get_query_hash (q : String) : String :=
  String.mk ((md5HexChars ((trimWs (q.toList.map asciiLower)).map Char.toNat)).take 8)

/-- Oracle values standing for the `random` calls of `_enhance_query`: indices into the
modifier lists (taken modulo their length) and the outcome of `random.random() < 0.3`. -/
structure RandOracle where
  longChoice : Nat
  varietyChoice : Nat
  varietyRoll : Bool
  varietyChoice2 : Nat
  deriving DecidableEq, Repr

/-- `random.choice` from a fixed nonempty list, the oracle index taken modulo the length. -/
def pick (l : List String) (i : Nat) : String := l.getD (i % l.length) ("")

/-- The modifier pool attached for `video_type == "long"`. -/
def long_modifiers : List String :=
  ["full", "complete", "documentary", "tutorial", "guide", "explained"]

/-- The variety modifier pool of `_enhance_query`. -/
def variety_modifiers : List String :=
  ["latest", "new", "best", "top", "popular", "recent",
   "tutorial", "guide", "review", "explained", "2024", "2023"]

/-- The first step of `_enhance_query`: the code reassigns `query` with the video-type
modifier before anything else. -/
def withTypeModifier (ro : RandOracle) (query video_type : String) : String :=
  if video_type = "shorts" then query ++ " shorts"
  else if video_type = "long" then query ++ " " ++ pick long_modifiers ro.longChoice
  else query

/-- Shallow embedding of `_enhance_query`.  `histIter` is the iteration order of the
history set (`list(self.search_history)`); `fuzzAvail` models the optional
fuzzywuzzy-import guard on the history scan.  Note that the hash fed to the substring guard is
computed from the query as already extended with the video-type modifier, because the
code reassigns `query` before hashing. -/
def enhance_query (fuzzAvail : Bool) (ro : RandOracle) (histIter : List String)
    (query video_type : String) : String :=
  let q1 := withTypeModifier ro query video_type
  if fuzzAvail = true ∧ histIter ≠ [] ∧
      (lastSlice 10 histIter).any (fun prev => strContainsSub (get_query_hash q1) prev) then
    q1 ++ " " ++ pick variety_modifiers ro.varietyChoice
  else if video_type = "any" ∧ ro.varietyRoll = true then
    q1 ++ " " ++ pick variety_modifiers ro.varietyChoice2
  else q1

/-- Runtime availability of the optional libraries (module-level imports). -/
structure Env where
  gapiAvail : Bool
  ytdlpAvail : Bool
  deriving DecidableEq, Repr

/-- Python truthiness of the `api_key` argument (`None` and the empty string are falsy). -/
def keyTruthy : Option String → Bool
  | some s => s != ""
  | none => false

/-- Shallow embedding of `__init__` + `_validate_backend`: the backend string after
construction.  A configured `"google_api"` backend falls back to `"yt_dlp"` when the key
or the client library is missing; a missing yt-dlp dependency only logs a warning. -/
def validate_backend (env : Env) (backend : String) (api_key : Option String) : String :=
  if backend = "google_api" ∧ (keyTruthy api_key = false ∨ env.gapiAvail = false) then "yt_dlp"
  else backend

/-- Shallow embedding of `search`: the query is enhanced (forming the outbound request,
which the response oracles answer), then the call dispatches on the backend string and
the availability re-checks; with no available backend it returns no result and leaves
the history unchanged. -/
def search (env : Env) (fuzzAvail : Bool) (ro : RandOracle)
    (ord : List String → List String) (backend : String) (api_key : Option String)
    (history : List String) (gResp : Option (List String)) (yResp : Option (List Entry))
    (query video_type : String) : Option String × List String :=
  let _request := enhance_query fuzzAvail ro (ord history) query video_type
  if backend = "google_api" ∧ keyTruthy api_key = true ∧ env.gapiAvail = true then
    search_google_api ord history gResp video_type
  else if backend = "yt_dlp" ∧ env.ytdlpAvail = true then
    search_yt_dlp ord history yResp video_type
  else (none, history)

/-- Known-answer test for the MD5 embedding (RFC 1321 test suite). -/
theorem md5_known_answer : String.mk (md5HexChars (("abc".toList).map Char.toNat)) =
    "900150983cd24fb0d6963f7d28e17f72" := by decide
/-- Known-answer tests for the query hash, matching hashlib: the hash of cats (also after
case folding and stripping) and of cats shorts. -/
theorem query_hash_known_answer :
    get_query_hash ("cats") = "0832c120" ∧
    get_query_hash (" CATS  ") = "0832c120" ∧
    get_query_hash ("cats shorts") = "26197c15" := by
  refine ⟨?_, ?_, ?_⟩ <;> decide

/-- Membership in the filtered list is membership plus the keep decision. -/
theorem mem_filter_by_duration (e : Entry) (es : List Entry) (vt : String) :
    e ∈ filter_by_duration es vt ↔ e ∈ es ∧ keepEntry vt e = true := by
  simp [filter_by_duration, List.mem_filter]

/-- C5: duration filter semantics — for every candidate list, a 45-second candidate is kept
under shorts and dropped under long, a 900-second candidate is kept under long, and an
unknown (None) duration is dropped under shorts and long but kept under any. -/
theorem duration_filter_cases :
    (∀ u i es, Entry.mk u i (.vInt 45) ∈ filter_by_duration es ("shorts")
        ↔ Entry.mk u i (.vInt 45) ∈ es) ∧
    (∀ u i es, Entry.mk u i (.vInt 45) ∉ filter_by_duration es ("long")) ∧
    (∀ u i es, Entry.mk u i (.vInt 900) ∈ filter_by_duration es ("long")
        ↔ Entry.mk u i (.vInt 900) ∈ es) ∧
    (∀ u i es, Entry.mk u i .vNone ∉ filter_by_duration es ("shorts")) ∧
    (∀ u i es, Entry.mk u i .vNone ∉ filter_by_duration es ("long")) ∧
    (∀ u i es, Entry.mk u i .vNone ∈ filter_by_duration es ("any")
        ↔ Entry.mk u i .vNone ∈ es) := by
  refine ⟨?_, ?_, ?_, ?_, ?_, ?_⟩ <;> intro u i es
  · have hk : keepEntry ("shorts") (Entry.mk u i (.vInt 45)) = true := rfl
    simp [mem_filter_by_duration, hk]
  · have hk : keepEntry ("long") (Entry.mk u i (.vInt 45)) = false := rfl
    simp [mem_filter_by_duration, hk]
  · have hk : keepEntry ("long") (Entry.mk u i (.vInt 900)) = true := rfl
    simp [mem_filter_by_duration, hk]
  · have hk : keepEntry ("shorts") (Entry.mk u i .vNone) = false := rfl
    simp [mem_filter_by_duration, hk]
  · have hk : keepEntry ("long") (Entry.mk u i .vNone) = false := rfl
    simp [mem_filter_by_duration, hk]
  · have hk : keepEntry ("any") (Entry.mk u i .vNone) = true := rfl
    simp [mem_filter_by_duration, hk]

/-- C5 witness at a concrete list. -/
theorem duration_filter_cases_witness :
    Entry.mk none none (.vInt 45) ∈
      filter_by_duration ([Entry.mk none none (.vInt 45)]) ("shorts") ∧
    Entry.mk none none .vNone ∉
      filter_by_duration ([Entry.mk none none .vNone]) ("long") :=
  ⟨(duration_filter_cases.1 none none ([Entry.mk none none (.vInt 45)])).mpr (by decide),
   duration_filter_cases.2.2.2.2.1 none none ([Entry.mk none none .vNone])⟩

/-- C10: in the extractor path's duration filter, a falsy duration field (0, empty string or
None) is treated as unknown and dropped under shorts and long; likewise any duration that
parses to 0 seconds is dropped under shorts (and long). -/
theorem zero_duration_dropped :
    (∀ u i es vt, vt = "shorts" ∨ vt = "long" →
      Entry.mk u i (.vInt 0) ∉ filter_by_duration es vt ∧
      Entry.mk u i (.vStr ("")) ∉ filter_by_duration es vt ∧
      Entry.mk u i .vNone ∉ filter_by_duration es vt) ∧
    (∀ u i es d, parse_duration d = some 0 →
      Entry.mk u i d ∉ filter_by_duration es ("shorts") ∧
      Entry.mk u i d ∉ filter_by_duration es ("long")) := by
  constructor
  · intro u i es vt hvt
    rcases hvt with h | h <;> subst h <;>
      refine ⟨?_, ?_, ?_⟩ <;> simp [mem_filter_by_duration] <;> intro _ <;> rfl
  · intro u i es d hp
    have h0 : ∀ vt, vt = "shorts" ∨ vt = "long" →
        keepEntry vt (Entry.mk u i d) = false := by
      intro vt hvt
      cases d with
      | vInt n =>
        have hn : n = 0 := by simpa [parse_duration] using hp
        subst hn
        rcases hvt with h | h <;> subst h <;> rfl
      | vNone => simp [parse_duration] at hp
      | vStr s =>
        by_cases hs : s = ""
        · subst hs
          rcases hvt with h | h <;> subst h <;> rfl
        · have ht : pyTruthy (.vStr s) = true := by simp [pyTruthy, hs]
          rcases hvt with h | h <;> subst h <;>
            simp [keepEntry, ht, hp]
    refine ⟨?_, ?_⟩ <;> simp [mem_filter_by_duration] <;> intro _
    · exact h0 ("shorts") (Or.inl rfl)
    · exact h0 ("long") (Or.inr rfl)

/-- C10 witness at concrete inputs, including the parsed-to-zero string duration 0:00. -/
theorem zero_duration_dropped_witness :
    (Entry.mk none none (.vInt 0) ∉
        filter_by_duration ([Entry.mk none none (.vInt 0)]) ("shorts") ∧
      Entry.mk none none (.vStr ("")) ∉
        filter_by_duration ([Entry.mk none none (.vInt 0)]) ("shorts") ∧
      Entry.mk none none .vNone ∉
        filter_by_duration ([Entry.mk none none (.vInt 0)]) ("shorts")) ∧
    (Entry.mk none none (.vStr ("0:00")) ∉
        filter_by_duration ([Entry.mk none none (.vStr ("0:00"))]) ("shorts") ∧
      Entry.mk none none (.vStr ("0:00")) ∉
        filter_by_duration ([Entry.mk none none (.vStr ("0:00"))]) ("long")) :=
  ⟨zero_duration_dropped.1 none none ([Entry.mk none none (.vInt 0)]) ("shorts") (Or.inl rfl),
   zero_duration_dropped.2 none none ([Entry.mk none none (.vStr ("0:00"))])
     (.vStr ("0:00")) (by decide)⟩

/-- Dropping while a predicate fails on every element changes nothing. -/
theorem dropWhile_eq_self_of_all {p : α → Bool} {l : List α} (h : ∀ a ∈ l, p a = false) :
    l.dropWhile p = l := by
  cases l with
  | nil => rfl
  | cons a t => simp [List.dropWhile_cons, h a (by simp)]

/-- Stripping whitespace from a whitespace-free list changes nothing. -/
theorem trimWs_eq_self {l : List Char} (h : ∀ c ∈ l, isWs c = false) : trimWs l = l := by
  have h1 : l.dropWhile isWs = l := dropWhile_eq_self_of_all h
  have h2 : l.reverse.dropWhile isWs = l.reverse :=
    dropWhile_eq_self_of_all (fun a ha => h a (List.mem_reverse.mp ha))
  unfold trimWs
  rw [h1, h2, List.reverse_reverse]

/-- A digit never equals a non-digit character. -/
theorem beq_false_of_dig {c w : Char} (hc : isDig c = true) (hw : isDig w = false) :
    (c == w) = false := by
  cases he : c == w
  · rfl
  · have hcw : c = w := beq_iff_eq.mp he
    rw [hcw, hw] at hc
    exact absurd hc (by decide)

/-- Digits are not whitespace. -/
theorem isDig_not_ws {c : Char} (h : isDig c = true) : isWs c = false := by
  unfold isWs
  rw [beq_false_of_dig h (by decide), beq_false_of_dig h (by decide),
    beq_false_of_dig h (by decide), beq_false_of_dig h (by decide),
    beq_false_of_dig h (by decide), beq_false_of_dig h (by decide)]
  rfl

/-- Digits are none of colon, minus, plus, dot. -/
theorem isDig_ne {c : Char} (h : isDig c = true) :
    c ≠ ':' ∧ c ≠ '-' ∧ c ≠ '+' ∧ c ≠ '.' := by
  refine ⟨?_, ?_, ?_, ?_⟩ <;> intro hc <;> subst hc <;> exact absurd h (by decide)

/-- takeWhile / dropWhile on a run of satisfying elements followed by a failing one. -/
theorem takeWhile_append_stop {p : α → Bool} {a : List α} {y : α} {b : List α}
    (ha : ∀ x ∈ a, p x = true) (hy : p y = false) :
    (a ++ y :: b).takeWhile p = a ∧ (a ++ y :: b).dropWhile p = y :: b := by
  induction a with
  | nil => simp [List.takeWhile_cons, List.dropWhile_cons, hy]
  | cons c t ih =>
    have hc : p c = true := ha c (by simp)
    have ih' := ih (fun x hx => ha x (by simp [hx]))
    simp [List.takeWhile_cons, List.dropWhile_cons, hc, ih'.1, ih'.2]

/-- takeWhile / dropWhile on a list of satisfying elements. -/
theorem takeWhile_all {p : α → Bool} {l : List α} (h : ∀ x ∈ l, p x = true) :
    l.takeWhile p = l ∧ l.dropWhile p = [] := by
  induction l with
  | nil => simp
  | cons c t ih =>
    have ih' := ih (fun x hx => h x (by simp [hx]))
    simp [List.takeWhile_cons, List.dropWhile_cons, h c (by simp), ih'.1, ih'.2]

/-- Python int() on a plain digit string returns its value. -/
theorem pyIntOfChars_digits {l : List Char} (hne : l ≠ []) (hd : ∀ c ∈ l, isDig c = true) :
    pyIntOfChars l = some ((digitsVal l : Int)) := by
  have ht : trimWs l = l := trimWs_eq_self (fun c hc => isDig_not_ws (hd c hc))
  unfold pyIntOfChars
  rw [ht]
  cases l with
  | nil => exact absurd rfl hne
  | cons c t =>
    have hc : isDig c = true := hd c (by simp)
    have h1 := isDig_ne hc
    have hall : (c :: t).all isDig = true := by
      rw [List.all_eq_true]
      intro x hx
      exact hd x hx
    simp [h1.2.1, h1.2.2.1, hall]

/-- floatIntPart on a plain digit string returns its value. -/
theorem floatIntPart_digits {l : List Char} (hne : l ≠ []) (hd : ∀ c ∈ l, isDig c = true) :
    floatIntPart l = some (digitsVal l) := by
  have htk := takeWhile_all hd
  simp only [floatIntPart]
  rw [htk.1, htk.2]
  simp [hne]

/-- floatIntPart fails on a digit run followed by a colon. -/
theorem floatIntPart_stop {a rest : List Char} (hd : ∀ c ∈ a, isDig c = true) :
    floatIntPart (a ++ ':' :: rest) = none := by
  have hstop := @takeWhile_append_stop Char isDig a ':' rest hd (by decide)
  simp only [floatIntPart]
  rw [hstop.2]
  rfl

/-- int(float(s)) on a plain digit string returns its value. -/
theorem pyFloatToInt_digits {l : List Char} (hne : l ≠ []) (hd : ∀ c ∈ l, isDig c = true) :
    pyFloatToInt l = some ((digitsVal l : Int)) := by
  have ht : trimWs l = l := trimWs_eq_self (fun c hc => isDig_not_ws (hd c hc))
  unfold pyFloatToInt
  rw [ht]
  cases l with
  | nil => exact absurd rfl hne
  | cons c t =>
    have hc : isDig c = true := hd c (by simp)
    have h1 := isDig_ne hc
    have h0 : floatIntPart (c :: t) = some (digitsVal (c :: t)) :=
      floatIntPart_digits (by simp) hd
    simp [h1.2.1, h1.2.2.1, h0]

/-- int(float(s)) fails when a (possibly empty) digit run is followed by a colon and a
whitespace-free tail. -/
theorem pyFloatToInt_digits_colon {a rest : List Char} (hd : ∀ c ∈ a, isDig c = true)
    (hrest : ∀ c ∈ rest, isWs c = false) :
    pyFloatToInt (a ++ ':' :: rest) = none := by
  have hnws : ∀ c ∈ a ++ ':' :: rest, isWs c = false := by
    intro c hc
    rcases List.mem_append.mp hc with h | h
    · exact isDig_not_ws (hd c h)
    · rcases List.mem_cons.mp h with h | h
      · subst h; decide
      · exact hrest c h
  have ht : trimWs (a ++ ':' :: rest) = a ++ ':' :: rest := trimWs_eq_self hnws
  have h0 : floatIntPart (a ++ ':' :: rest) = none := floatIntPart_stop hd
  unfold pyFloatToInt
  rw [ht]
  cases a with
  | nil =>
    simp only [List.nil_append] at h0 ⊢
    simp [h0, (by decide : ¬ (':' : Char) = '-'), (by decide : ¬ (':' : Char) = '+')]
  | cons c t =>
    have hc : isDig c = true := hd c (by simp)
    have h1 := isDig_ne hc
    rw [List.cons_append] at h0 ⊢
    simp [h1.2.1, h1.2.2.1, h0]

/-- Splitting a colon-free list yields the singleton. -/
theorem splitOnColon_no_colon {l : List Char} (h : ∀ c ∈ l, c ≠ ':') :
    splitOnColon l = [l] := by
  induction l with
  | nil => rfl
  | cons c t ih =>
    have hc : c ≠ ':' := h c (by simp)
    have ht := ih (fun x hx => h x (by simp [hx]))
    simp [splitOnColon, hc, ht]

/-- Splitting peels the part before the first colon. -/
theorem splitOnColon_append {a b : List Char} (h : ∀ c ∈ a, c ≠ ':') :
    splitOnColon (a ++ ':' :: b) = a :: splitOnColon b := by
  induction a with
  | nil => simp [splitOnColon]
  | cons c t ih =>
    have hc : c ≠ ':' := h c (by simp)
    have ht := ih (fun x hx => h x (by simp [hx]))
    simp [splitOnColon, hc, ht]

/-- C9: duration parsing — an integer seconds value parses to itself, a digit string to its
value, MM:SS to MM*60+SS and HH:MM:SS to HH*3600+MM*60+SS for digit parts, the spec's
concrete examples evaluate as stated, and unparseable inputs (None, non-numeric text)
yield none rather than an error. -/
theorem parse_duration_spec :
    (∀ n : Int, parse_duration (.vInt n) = some n) ∧
    parse_duration .vNone = none ∧
    (∀ a : List Char, a ≠ [] → (∀ c ∈ a, isDig c = true) →
      parse_duration (.vStr (String.mk a)) = some ((digitsVal a : Int))) ∧
    (∀ a b : List Char, a ≠ [] → b ≠ [] →
      (∀ c ∈ a, isDig c = true) → (∀ c ∈ b, isDig c = true) →
      parse_duration (.vStr (String.mk (a ++ ':' :: b))) =
        some ((digitsVal a : Int) * 60 + (digitsVal b : Int))) ∧
    (∀ a b c : List Char, a ≠ [] → b ≠ [] → c ≠ [] →
      (∀ x ∈ a, isDig x = true) → (∀ x ∈ b, isDig x = true) → (∀ x ∈ c, isDig x = true) →
      parse_duration (.vStr (String.mk (a ++ ':' :: (b ++ ':' :: c)))) =
        some ((digitsVal a : Int) * 3600 + (digitsVal b : Int) * 60 + (digitsVal c : Int))) ∧
    parse_duration (.vStr ("25:00")) = some 1500 ∧
    parse_duration (.vStr ("3:45")) = some 225 ∧
    parse_duration (.vStr ("45:10")) = some 2710 ∧
    parse_duration (.vStr ("hello")) = none := by
  refine ⟨fun n => rfl, rfl, ?_, ?_, ?_, by decide, by decide, by decide, by decide⟩
  · intro a hne hd
    have hm : (String.mk a).toList = a := rfl
    have hf : pyFloatToInt a = some ((digitsVal a : Int)) := pyFloatToInt_digits hne hd
    simp only [parse_duration]
    rw [hm, hf]
  · intro a b hna hnb hda hdb
    have hm : (String.mk (a ++ ':' :: b)).toList = a ++ ':' :: b := rfl
    have hws : ∀ c ∈ b, isWs c = false := fun c hc => isDig_not_ws (hdb c hc)
    have hf : pyFloatToInt (a ++ ':' :: b) = none := pyFloatToInt_digits_colon hda hws
    have hsp : splitOnColon (a ++ ':' :: b) = a :: splitOnColon b :=
      splitOnColon_append (fun c hc => (isDig_ne (hda c hc)).1)
    have hsb : splitOnColon b = [b] :=
      splitOnColon_no_colon (fun c hc => (isDig_ne (hdb c hc)).1)
    simp only [parse_duration]
    rw [hm, hf, hsp, hsb]
    dsimp only
    rw [pyIntOfChars_digits hna hda, pyIntOfChars_digits hnb hdb]
  · intro a b c hna hnb hnc hda hdb hdc
    have hm : (String.mk (a ++ ':' :: (b ++ ':' :: c))).toList =
        a ++ ':' :: (b ++ ':' :: c) := rfl
    have hws : ∀ x ∈ b ++ ':' :: c, isWs x = false := by
      intro x hx
      rcases List.mem_append.mp hx with h | h
      · exact isDig_not_ws (hdb x h)
      · rcases List.mem_cons.mp h with h | h
        · subst h; decide
        · exact isDig_not_ws (hdc x h)
    have hf : pyFloatToInt (a ++ ':' :: (b ++ ':' :: c)) = none :=
      pyFloatToInt_digits_colon hda hws
    have hsp : splitOnColon (a ++ ':' :: (b ++ ':' :: c)) =
        a :: splitOnColon (b ++ ':' :: c) :=
      splitOnColon_append (fun x hx => (isDig_ne (hda x hx)).1)
    have hsp2 : splitOnColon (b ++ ':' :: c) = b :: splitOnColon c :=
      splitOnColon_append (fun x hx => (isDig_ne (hdb x hx)).1)
    have hsc : splitOnColon c = [c] :=
      splitOnColon_no_colon (fun x hx => (isDig_ne (hdc x hx)).1)
    simp only [parse_duration]
    rw [hm, hf, hsp, hsp2, hsc]
    dsimp only
    rw [pyIntOfChars_digits hna hda, pyIntOfChars_digits hnb hdb, pyIntOfChars_digits hnc hdc]

/-- C9 witness: the MM:SS rule applied at 45:10. -/
theorem parse_duration_spec_witness :
    parse_duration (.vStr (String.mk (['4', '5'] ++ ':' :: ['1', '0']))) =
      some ((digitsVal (['4', '5']) : Int) * 60 + (digitsVal (['1', '0']) : Int)) :=
  parse_duration_spec.2.2.2.1 (['4', '5']) (['1', '0']) (by decide) (by decide)
    (by decide) (by decide)

/-- The metadata-API path mutates nothing when it returns no result. -/
theorem google_none_unchanged (ord : List String → List String) (history : List String)
    (resp : Option (List String)) (vt : String)
    (h : (search_google_api ord history resp vt).1 = none) :
    (search_google_api ord history resp vt).2 = history := by
  cases resp with
  | none => rfl
  | some l =>
    cases l with
    | nil => rfl
    | cons i0 rest =>
      cases hfu : firstUnseenId history (i0 :: rest) with
      | some i => simp [search_google_api, hfu] at h
      | none => simp [search_google_api, hfu] at h

/-- Canonical form of the extractor path on a nonempty response, with the filtered list
written through an `if` on the duration class. -/
theorem search_yt_dlp_cons (ord : List String → List String) (history : List String)
    (e0 : Entry) (rest : List Entry) (vt : String) :
    search_yt_dlp ord history (some (e0 :: rest)) vt =
      (if (if vt = "any" then e0 :: rest else filter_by_duration (e0 :: rest) vt) = []
        then (none, history)
        else
          match firstUnseenUrl history
              (if vt = "any" then e0 :: rest else filter_by_duration (e0 :: rest) vt) with
          | some u => (some u, cleanup_history ord (history ++ [u]))
          | none =>
            match firstValidUrl
                (if vt = "any" then e0 :: rest else filter_by_duration (e0 :: rest) vt) with
            | some u => (some u, history)
            | none => (none, history)) := by
  by_cases h : vt = "any" <;> simp [search_yt_dlp, h]

/-- The extractor path mutates nothing when it returns no result. -/
theorem ytdlp_none_unchanged (ord : List String → List String) (history : List String)
    (resp : Option (List Entry)) (vt : String)
    (h : (search_yt_dlp ord history resp vt).1 = none) :
    (search_yt_dlp ord history resp vt).2 = history := by
  cases resp with
  | none => rfl
  | some l =>
    cases l with
    | nil => rfl
    | cons e0 rest =>
      rw [search_yt_dlp_cons] at h ⊢
      by_cases hE :
          (if vt = "any" then e0 :: rest else filter_by_duration (e0 :: rest) vt) = []
      · rw [if_pos hE]
      · rw [if_neg hE] at h ⊢
        cases hscan : firstUnseenUrl history
            (if vt = "any" then e0 :: rest else filter_by_duration (e0 :: rest) vt) with
        | some u => simp [hscan] at h
        | none =>
          cases hval : firstValidUrl
              (if vt = "any" then e0 :: rest else filter_by_duration (e0 :: rest) vt) with
          | some u => simp [hscan, hval] at h
          | none => simp [hscan, hval]

/-- The search dispatch mutates nothing when it returns no result. -/
theorem search_none_unchanged (env : Env) (fz : Bool) (ro : RandOracle)
    (ord : List String → List String) (b : String) (k : Option String)
    (history : List String) (g : Option (List String)) (y : Option (List Entry))
    (q vt : String) (h : (search env fz ro ord b k history g y q vt).1 = none) :
    (search env fz ro ord b k history g y q vt).2 = history := by
  by_cases h1 : b = "google_api" ∧ keyTruthy k = true ∧ env.gapiAvail = true
  · simp only [search, if_pos h1] at h ⊢
    exact google_none_unchanged ord history g vt h
  · by_cases h2 : b = "yt_dlp" ∧ env.ytdlpAvail = true
    · simp only [search, if_neg h1, if_pos h2] at h ⊢
      exact ytdlp_none_unchanged ord history y vt h
    · simp only [search, if_neg h1, if_neg h2]

/-- C7: failure atomicity — every resolution that returns no result (error response, empty
response, everything filtered out, no available backend) leaves the history unchanged, on
both backend paths and through the search dispatch. -/
theorem failure_preserves_history :
    (∀ ord history resp vt, (search_google_api ord history resp vt).1 = none →
      (search_google_api ord history resp vt).2 = history) ∧
    (∀ ord history resp vt, (search_yt_dlp ord history resp vt).1 = none →
      (search_yt_dlp ord history resp vt).2 = history) ∧
    (∀ env fz ro ord b k history g y q vt,
      (search env fz ro ord b k history g y q vt).1 = none →
      (search env fz ro ord b k history g y q vt).2 = history) :=
  ⟨google_none_unchanged, ytdlp_none_unchanged, search_none_unchanged⟩

/-- C7 witness: an error response on the metadata-API path leaves a concrete history intact. -/
theorem failure_preserves_history_witness :
    (search_google_api (fun l => l) ([watchUrl ("a")]) none ("any")).2 = [watchUrl ("a")] :=
  failure_preserves_history.1 (fun l => l) ([watchUrl ("a")]) none ("any") rfl

/-- C8: construction-time backend policy — a configured metadata-API backend with a missing
key or client library falls back to the extractor at construction; a constructed extractor
backend whose dependency is unavailable makes every search return no result with the history
unchanged; and the per-call dispatch always agrees with the constructed backend (the
re-checks in search cannot diverge from the construction-time decision). -/
theorem backend_policy :
    (∀ env k, keyTruthy k = false ∨ env.gapiAvail = false →
      validate_backend env ("google_api") k = "yt_dlp") ∧
    (∀ env b k fz ro ord history g y q vt,
      validate_backend env b k = "yt_dlp" → env.ytdlpAvail = false →
      search env fz ro ord (validate_backend env b k) k history g y q vt = (none, history)) ∧
    (∀ env b k fz ro ord history g y q vt,
      validate_backend env b k = "google_api" →
      search env fz ro ord (validate_backend env b k) k history g y q vt =
        search_google_api ord history g vt) ∧
    (∀ env b k fz ro ord history g y q vt,
      validate_backend env b k = "yt_dlp" → env.ytdlpAvail = true →
      search env fz ro ord (validate_backend env b k) k history g y q vt =
        search_yt_dlp ord history y vt) := by
  refine ⟨?_, ?_, ?_, ?_⟩
  · intro env k hk
    simp [validate_backend, hk]
  · intro env b k fz ro ord history g y q vt hv hyt
    rw [hv]
    simp [search, hyt]
  · intro env b k fz ro ord history g y q vt hv
    have hb : b = "google_api" ∧ ¬(keyTruthy k = false ∨ env.gapiAvail = false) := by
      by_cases hc : b = "google_api" ∧ (keyTruthy k = false ∨ env.gapiAvail = false)
      · rw [validate_backend, if_pos hc] at hv
        exact absurd hv (by decide)
      · rw [validate_backend, if_neg hc] at hv
        subst hv
        exact ⟨rfl, fun hor => hc ⟨rfl, hor⟩⟩
    have hkey : keyTruthy k = true := by
      cases hk : keyTruthy k
      · exact absurd (Or.inl hk) hb.2
      · rfl
    have hav : env.gapiAvail = true := by
      cases ha : env.gapiAvail
      · exact absurd (Or.inr ha) hb.2
      · rfl
    rw [hv]
    simp [search, hkey, hav]
  · intro env b k fz ro ord history g y q vt hv hyt
    rw [hv]
    simp [search, hyt]

/-- C8 witness: metadata-API configured with no key and no client library falls back. -/
theorem backend_policy_witness :
    validate_backend (Env.mk false false) ("google_api") none = "yt_dlp" :=
  backend_policy.1 (Env.mk false false) none (Or.inl rfl)

/-- The google scan is List.find? on the watch URLs. -/
theorem find_map_watch (history : List String) (l : List String) :
    (l.map watchUrl).find? (fun u => !decide (u ∈ history)) =
      (firstUnseenId history l).map watchUrl := by
  induction l with
  | nil => rfl
  | cons i rest ih =>
    by_cases h : watchUrl i ∈ history
    · simp [firstUnseenId, h, ih, List.find?_cons]
    · simp [firstUnseenId, h, List.find?_cons]

/-- The yt-dlp first loop is List.find? on the extracted URLs. -/
theorem firstUnseenUrl_eq_find (history : List String) (l : List Entry) :
    firstUnseenUrl history l =
      (l.filterMap extract_url_from_entry).find? (fun u => !decide (u ∈ history)) := by
  induction l with
  | nil => rfl
  | cons e rest ih =>
    cases hx : extract_url_from_entry e with
    | none => simp [firstUnseenUrl, hx, ih, List.filterMap_cons]
    | some u =>
      by_cases h : u ∈ history
      · simp [firstUnseenUrl, hx, h, ih, List.filterMap_cons, List.find?_cons]
      · simp [firstUnseenUrl, hx, h, List.filterMap_cons, List.find?_cons]

/-- The yt-dlp second loop is List.head? on the extracted URLs. -/
theorem firstValidUrl_eq_head (l : List Entry) :
    firstValidUrl l = (l.filterMap extract_url_from_entry).head? := by
  induction l with
  | nil => rfl
  | cons e rest ih =>
    cases hx : extract_url_from_entry e with
    | none => simp [firstValidUrl, hx, ih, List.filterMap_cons]
    | some u => simp [firstValidUrl, hx, List.filterMap_cons]

/-- C1: selection rule — on both backend paths, a successful response resolves to the first
candidate URL (in backend order, after the extractor's local filtering for a non-any class)
that is absent from the history; if every candidate URL is already in the history, the first
candidate URL is returned; with no candidates left, no result is returned. -/
theorem resolve_selection_rule :
    (∀ ord history items vt,
      (search_google_api ord history (some items) vt).1 =
        (match (items.map watchUrl).find? (fun u => !decide (u ∈ history)) with
          | some u => some u
          | none => (items.map watchUrl).head?)) ∧
    (∀ ord history entries vt,
      (search_yt_dlp ord history (some entries) vt).1 =
        (match ((if vt = "any" then entries else filter_by_duration entries vt).filterMap
              extract_url_from_entry).find? (fun u => !decide (u ∈ history)) with
          | some u => some u
          | none =>
            ((if vt = "any" then entries else filter_by_duration entries vt).filterMap
              extract_url_from_entry).head?)) := by
  constructor
  · intro ord history items vt
    cases items with
    | nil => rfl
    | cons i0 rest =>
      rw [find_map_watch]
      cases hfu : firstUnseenId history (i0 :: rest) with
      | some i => simp [search_google_api, hfu]
      | none => simp [search_google_api, hfu]
  · intro ord history entries vt
    cases entries with
    | nil =>
      by_cases h : vt = "any" <;> simp [search_yt_dlp, filter_by_duration, h]
    | cons e0 rest =>
      rw [search_yt_dlp_cons]
      set F := if vt = "any" then e0 :: rest else filter_by_duration (e0 :: rest) vt with hF
      by_cases hE : F = []
      · rw [if_pos hE, hE]
        simp
      · rw [if_neg hE, ← firstUnseenUrl_eq_find history F, ← firstValidUrl_eq_head F]
        cases firstUnseenUrl history F with
        | some u => rfl
        | none =>
          cases firstValidUrl F with
          | some u => rfl
          | none => rfl

/-- A URL produced by the first yt-dlp loop comes from a listed entry. -/
theorem firstUnseenUrl_sound {history : List String} {l : List Entry} {u : String}
    (h : firstUnseenUrl history l = some u) :
    ∃ e ∈ l, extract_url_from_entry e = some u := by
  induction l with
  | nil => simp [firstUnseenUrl] at h
  | cons e rest ih =>
    cases hx : extract_url_from_entry e with
    | none =>
      simp only [firstUnseenUrl, hx] at h
      obtain ⟨e', he', hu⟩ := ih h
      exact ⟨e', by simp [he'], hu⟩
    | some v =>
      simp only [firstUnseenUrl, hx] at h
      by_cases hm : v ∈ history
      · rw [if_pos hm] at h
        obtain ⟨e', he', hu⟩ := ih h
        exact ⟨e', by simp [he'], hu⟩
      · rw [if_neg hm] at h
        refine ⟨e, by simp, ?_⟩
        rw [hx]
        exact h
/-- A URL produced by the second yt-dlp loop comes from a listed entry. -/
theorem firstValidUrl_sound {l : List Entry} {u : String}
    (h : firstValidUrl l = some u) :
    ∃ e ∈ l, extract_url_from_entry e = some u := by
  induction l with
  | nil => simp [firstValidUrl] at h
  | cons e rest ih =>
    cases hx : extract_url_from_entry e with
    | none =>
      simp only [firstValidUrl, hx] at h
      obtain ⟨e', he', hu⟩ := ih h
      exact ⟨e', by simp [he'], hu⟩
    | some v =>
      simp only [firstValidUrl, hx] at h
      refine ⟨e, by simp, ?_⟩
      rw [hx]
      exact h
/-- An entry kept under shorts or long has a known, nonzero duration within the bound. -/
theorem keepEntry_true_bound {vt : String} {e : Entry} (hvt : vt = "shorts" ∨ vt = "long")
    (hk : keepEntry vt e = true) :
    ∃ d, parse_duration e.duration = some d ∧ d ≠ 0 ∧
      (vt = "shorts" → d ≤ 60) ∧ (vt = "long" → 600 ≤ d) := by
  have ht : pyTruthy e.duration = true := by
    cases hpt : pyTruthy e.duration
    · rcases hvt with h | h <;> subst h <;> simp [keepEntry, hpt] at hk
    · rfl
  cases hp : parse_duration e.duration with
  | none => rcases hvt with h | h <;> subst h <;> simp [keepEntry, ht, hp] at hk
  | some d =>
    rcases hvt with h | h <;> subst h
    · have hb : d ≠ 0 ∧ d ≤ 60 := by
        simp [keepEntry, ht, hp] at hk
        exact hk
      exact ⟨d, rfl, hb.1, fun _ => hb.2, fun hc => absurd hc (by decide)⟩
    · have hb : d ≠ 0 ∧ 600 ≤ d := by
        simp [keepEntry, ht, hp] at hk
        exact hk
      exact ⟨d, rfl, hb.1, fun hc => absurd hc (by decide), fun _ => hb.2⟩

/-- C4 (amended): the local duration filter runs only in the extractor path, and only for a
non-any class — there, every returned URL comes from a locally filtered entry whose duration
is known, nonzero and within the class bound.  The metadata-API path applies no local
duration filter at all: its processing of the response is the same for every duration class
(it relies solely on the backend-native request filter), so its candidates — all of unknown
duration — are not dropped locally. -/
theorem local_filter_scope :
    (∀ ord history entries vt u, vt = "shorts" ∨ vt = "long" →
      (search_yt_dlp ord history (some entries) vt).1 = some u →
      ∃ e ∈ filter_by_duration entries vt, extract_url_from_entry e = some u ∧
        ∃ d, parse_duration e.duration = some d ∧ d ≠ 0 ∧
          (vt = "shorts" → d ≤ 60) ∧ (vt = "long" → 600 ≤ d)) ∧
    (∀ ord history resp vt,
      search_google_api ord history resp vt = search_google_api ord history resp ("any")) := by
  constructor
  · intro ord history entries vt u hvt h
    have hvne : ¬(vt = "any") := by
      rcases hvt with h1 | h1 <;> subst h1 <;> decide
    cases entries with
    | nil => simp [search_yt_dlp] at h
    | cons e0 rest =>
      rw [search_yt_dlp_cons, if_neg hvne] at h
      by_cases hE : filter_by_duration (e0 :: rest) vt = []
      · rw [if_pos hE] at h
        simp at h
      · rw [if_neg hE] at h
        cases hscan : firstUnseenUrl history (filter_by_duration (e0 :: rest) vt) with
        | some v =>
          rw [hscan] at h
          have huv : v = u := by simpa using h
          subst huv
          obtain ⟨e, heF, hux⟩ := firstUnseenUrl_sound hscan
          have hkeep := ((mem_filter_by_duration e (e0 :: rest) vt).mp heF).2
          exact ⟨e, heF, hux, keepEntry_true_bound hvt hkeep⟩
        | none =>
          rw [hscan] at h
          cases hval : firstValidUrl (filter_by_duration (e0 :: rest) vt) with
          | some v =>
            rw [hval] at h
            have huv : v = u := by simpa using h
            subst huv
            obtain ⟨e, heF, hux⟩ := firstValidUrl_sound hval
            have hkeep := ((mem_filter_by_duration e (e0 :: rest) vt).mp heF).2
            exact ⟨e, heF, hux, keepEntry_true_bound hvt hkeep⟩
          | none => simp [hval] at h
  · intro ord history resp vt
    rfl

/-- C4 is false as stated: the metadata-API path applies no local duration filter — a
shorts search on that path returns a candidate URL although every metadata-API candidate
has unknown duration, where the claim requires all of them to be dropped. -/
theorem metadata_shorts_counterexample :
    (search_google_api (fun l => l) ([]) (some (["vid1"])) ("shorts")).1 =
      some (watchUrl ("vid1")) := by decide

/-- C4 witness: the extractor-path bound applied at a concrete 30-second entry. -/
theorem local_filter_scope_witness :
    ∃ e ∈ filter_by_duration ([Entry.mk none (some ("a")) (.vInt 30)]) ("shorts"),
      extract_url_from_entry e = some (watchUrl ("a")) ∧
      ∃ d, parse_duration e.duration = some d ∧ d ≠ 0 ∧
        ("shorts" = "shorts" → d ≤ 60) ∧ ("shorts" = "long" → 600 ≤ d) :=
  local_filter_scope.1 (fun l => l) ([]) ([Entry.mk none (some ("a")) (.vInt 30)]) ("shorts")
    (watchUrl ("a")) (Or.inl rfl) (by decide)

/-- A random choice modelled through pick always lands in the list. -/
theorem pick_mem (l : List String) (i : Nat) (h : l ≠ []) : pick l i ∈ l := by
  have hlen : 0 < l.length := List.length_pos.mpr h
  have hlt : i % l.length < l.length := Nat.mod_lt _ hlen
  have h1 : pick l i = l[i % l.length] := List.getD_eq_getElem l ("") hlt
  rw [h1]
  exact List.getElem_mem hlt

/-- C6 (amended): the substring guard hashes the query as already extended with the
duration-class modifier (for the any class this is the original query); whenever the
fuzzy-match library is available, the history is non-empty, and one of the last 10 entries
of the history's iteration order contains that hash as a substring, a variety modifier is
always appended (for every random oracle) and the 30%-random variety rule is
short-circuited. -/
theorem hash_guard_forced :
    (∀ ro q, withTypeModifier ro q ("any") = q) ∧
    (∀ fz ro histIter q vt, fz = true → histIter ≠ [] →
      (lastSlice 10 histIter).any
        (fun prev => strContainsSub (get_query_hash (withTypeModifier ro q vt)) prev) = true →
      enhance_query fz ro histIter q vt =
        withTypeModifier ro q vt ++ " " ++ pick variety_modifiers ro.varietyChoice ∧
      pick variety_modifiers ro.varietyChoice ∈ variety_modifiers) := by
  constructor
  · intro ro q
    rfl
  · intro fz ro histIter q vt hfz hne hany
    subst hfz
    constructor
    · simp [enhance_query, hne, hany]
    · exact pick_mem variety_modifiers ro.varietyChoice (by decide)

/-- The concrete history entry of the C6 counterexample: a URL-shaped string containing the
hash of the original query cats. -/
def c6hist : String := "https://www.youtube.com/watch?v=" ++ get_query_hash ("cats")

/-- C6 is false as stated: with a history entry containing the hash of the *original* query
cats, a shorts search hashes the modified query cats shorts instead; the guard misses and no
variety modifier is appended at all. -/
theorem hash_guard_counterexample :
    strContainsSub (get_query_hash ("cats")) c6hist = true ∧
    enhance_query true (RandOracle.mk 0 0 false 0) ([c6hist]) ("cats") ("shorts") =
      "cats shorts" := by
  constructor
  · decide
  · decide

/-- C6 witness: the forced branch at a concrete seeded history, any class. -/
theorem hash_guard_forced_witness :
    enhance_query true (RandOracle.mk 0 3 false 0)
        (["x" ++ get_query_hash ("cats")]) ("cats") ("any") =
      withTypeModifier (RandOracle.mk 0 3 false 0) ("cats") ("any") ++ " " ++
        pick variety_modifiers 3 ∧
    pick variety_modifiers 3 ∈ variety_modifiers :=
  hash_guard_forced.2 true (RandOracle.mk 0 3 false 0) (["x" ++ get_query_hash ("cats")])
    ("cats") ("any") rfl (by decide) (by decide)

/-- A 51-identifier history in insertion order (u0 oldest … u50 newest). -/
def h51demo : List String := (List.range 51).map (fun i => "u" ++ toString i)

/-- C2: evaluating the trim at a 51-element history under the admissible set-iteration
order that reverses insertion order: the size facts hold (the trimmed history has exactly
30 entries), but the kept entries are not the 30 most recently inserted ones — the newest
identifier u50 is among the 30 most recent yet is dropped, because list(set)[-30:] keeps an
arbitrary slice of the unordered set. -/
theorem history_trim_not_recent :
    (List.reverse h51demo).Perm h51demo ∧
    50 < h51demo.length ∧
    (cleanup_history List.reverse h51demo).length = 30 ∧
    "u50" ∈ lastSlice 30 h51demo ∧
    "u50" ∉ cleanup_history List.reverse h51demo := by
  refine ⟨List.reverse_perm h51demo, ?_, ?_, ?_, ?_⟩
  · decide
  · decide
  · decide
  · decide

/-- A 50-URL history in insertion order, not containing the watch URL of vNew. -/
def h50demo : List String := (List.range 50).map (fun i => watchUrl ("v" ++ toString i))

/-- C3: a successful metadata-API resolution at a full 50-entry history returns a fresh URL
and inserts it, but the insertion pushes the set past the high-water mark and the trim —
taken under the admissible reversed iteration order — evicts the just-returned URL: it is
absent from the history afterwards. -/
theorem returned_url_evicted :
    (search_google_api List.reverse h50demo (some (["vNew"])) ("any")).1 =
      some (watchUrl ("vNew")) ∧
    watchUrl ("vNew") ∉ (search_google_api List.reverse h50demo (some (["vNew"])) ("any")).2 := by
  constructor
  · decide
  · decide

/-- For any admissible iteration-order oracle, cleaning a history of at most 51 elements
leaves at most 50 (the part of the history-bound invariant the code does satisfy). -/
theorem cleanup_history_le {ord : List String → List String}
    (hord : ∀ l, (ord l).Perm l) (l : List String) (h : l.length ≤ 51) :
    (cleanup_history ord l).length ≤ 50 := by
  unfold cleanup_history
  by_cases h50 : 50 < l.length
  · rw [if_pos h50]
    have hp : (ord l).length = l.length := (hord l).length_eq
    simp [lastSlice, List.length_drop, hp]
    omega
  · rw [if_neg h50]
    omega

/-- For any admissible oracle, a trim produces exactly 30 entries, all drawn from the
pre-trim contents — but which 30 depends on the unspecified iteration order. -/
theorem cleanup_history_trim {ord : List String → List String}
    (hord : ∀ l, (ord l).Perm l) (l : List String) (h : 50 < l.length) :
    (cleanup_history ord l).length = 30 ∧ ∀ u ∈ cleanup_history ord l, u ∈ l := by
  unfold cleanup_history
  rw [if_pos h]
  have hp : (ord l).length = l.length := (hord l).length_eq
  constructor
  · simp [lastSlice, List.length_drop, hp]
    omega
  · intro u hu
    have : u ∈ ord l := List.mem_of_mem_drop hu
    exact ((hord l).mem_iff).mp this

/-- One metadata-API call keeps the history within the 50-entry bound. -/
theorem google_history_bound {ord : List String → List String}
    (hord : ∀ l, (ord l).Perm l) (history : List String) (resp : Option (List String))
    (vt : String) (h : history.length ≤ 50) :
    (search_google_api ord history resp vt).2.length ≤ 50 := by
  cases resp with
  | none => exact h
  | some l =>
    cases l with
    | nil => exact h
    | cons i0 rest =>
      cases hfu : firstUnseenId history (i0 :: rest) with
      | some i =>
        simp only [search_google_api, hfu]
        exact cleanup_history_le hord _ (by simp [List.length_append]; omega)
      | none =>
        simp only [search_google_api, hfu]
        exact h

/-- One extractor call keeps the history within the 50-entry bound. -/
theorem ytdlp_history_bound {ord : List String → List String}
    (hord : ∀ l, (ord l).Perm l) (history : List String) (resp : Option (List Entry))
    (vt : String) (h : history.length ≤ 50) :
    (search_yt_dlp ord history resp vt).2.length ≤ 50 := by
  cases resp with
  | none => exact h
  | some l =>
    cases l with
    | nil => exact h
    | cons e0 rest =>
      rw [search_yt_dlp_cons]
      by_cases hE : (if vt = "any" then e0 :: rest else filter_by_duration (e0 :: rest) vt) = []
      · rw [if_pos hE]
        exact h
      · rw [if_neg hE]
        cases hscan : firstUnseenUrl history
            (if vt = "any" then e0 :: rest else filter_by_duration (e0 :: rest) vt) with
        | some u =>
          simp only
          exact cleanup_history_le hord _ (by simp [List.length_append]; omega)
        | none =>
          cases hval : firstValidUrl
              (if vt = "any" then e0 :: rest else filter_by_duration (e0 :: rest) vt) with
          | some u => exact h
          | none => exact h

/-- One search call keeps the history within the 50-entry bound. -/
theorem search_history_bound {ord : List String → List String}
    (hord : ∀ l, (ord l).Perm l) (env : Env) (fz : Bool) (ro : RandOracle) (b : String)
    (k : Option String) (history : List String) (g : Option (List String))
    (y : Option (List Entry)) (q vt : String) (h : history.length ≤ 50) :
    (search env fz ro ord b k history g y q vt).2.length ≤ 50 := by
  by_cases h1 : b = "google_api" ∧ keyTruthy k = true ∧ env.gapiAvail = true
  · simp only [search, if_pos h1]
    exact google_history_bound hord history g vt h
  · by_cases h2 : b = "yt_dlp" ∧ env.ytdlpAvail = true
    · simp only [search, if_neg h1, if_pos h2]
      exact ytdlp_history_bound hord history y vt h
    · simp only [search, if_neg h1, if_neg h2]
      exact h

/-- The per-call inputs of one resolution. -/
structure ResolveCall where
  env : Env
  fz : Bool
  ro : RandOracle
  backend : String
  api_key : Option String
  g : Option (List String)
  y : Option (List Entry)
  q : String
  vt : String

/-- The history contents after a sequence of search calls. -/
def runCalls (ord : List String → List String) (calls : List ResolveCall)
    (history : List String) : List String :=
  calls.foldl
    (fun h c => (search c.env c.fz c.ro ord c.backend c.api_key h c.g c.y c.q c.vt).2) history

/-- After any sequence of calls the history stays within the 50-entry bound. -/
theorem runCalls_bound {ord : List String → List String} (hord : ∀ l, (ord l).Perm l)
    (calls : List ResolveCall) (history : List String) (h : history.length ≤ 50) :
    (runCalls ord calls history).length ≤ 50 := by
  induction calls generalizing history with
  | nil => exact h
  | cons c rest ih =>
    exact ih _ (search_history_bound hord c.env c.fz c.ro c.backend c.api_key history
      c.g c.y c.q c.vt h)
